import Mathlib

/-!
Shallow embedding of the MetaStuff reflection library (headers
`src/include/Member.h`, `src/include/Meta.h`, `src/include/MemberPtr.h`).

The repository ships only the headers; the `.inl` implementation files they
include are not part of the sources.  Operations whose bodies live in the
headers (the `EnumMember` map machinery, the capability predicates, the
non-enum assertion overloads) are translated directly from that code.
Operations whose bodies live in the missing `.inl` files (`Member::get`,
`Member::set`, the registry and the generic dispatch layer) are modelled
from the specification; each such definition carries a doc comment starting
with `Modelled from the spec:`.
-/

set_option autoImplicit false

namespace MetaStuff

universe u v

/-! ## Association-list model of `std::unordered_map`

`EnumMember` stores its value→name and name→value tables in
`std::unordered_map`s.  We model a map as an association list with unique
keys kept implicitly by the update operation: `assocSet` replaces the binding
of an existing key and appends a fresh one, exactly the effect of
`map[key] = value` in C++. `assocFind` is `map.find`, and `bracketRead`
models reading `map[key]`: it returns the stored value when the key is
present and otherwise value-initializes an entry for the key, inserts it,
and returns it. -/

variable {α : Type u} {β : Type v}

/-- `map.find(k)` on the association-list model. -/
def assocFind [DecidableEq α] : List (α × β) → α → Option β
  | [], _ => none
  | p :: rest, k => if p.1 = k then some p.2 else assocFind rest k

/-- `map[k] = v` on the association-list model: overwrite the existing
binding of `k` if present, otherwise append a fresh one. -/
def assocSet [DecidableEq α] : List (α × β) → α → β → List (α × β)
  | [], k, v => [(k, v)]
  | p :: rest, k, v => if p.1 = k then (k, v) :: rest else p :: assocSet rest k v

/-- Reading `map[k]` in C++: return the stored value if present, otherwise
insert a value-initialized entry for `k` and return it.  The second
component is the (possibly grown) map. -/
def bracketRead [DecidableEq α] [Inhabited β] (m : List (α × β)) (k : α) :
    β × List (α × β) :=
  match assocFind m k with
  | some v => (v, m)
  | none => (default, assocSet m k default)

theorem assocFind_assocSet_self [DecidableEq α] (m : List (α × β)) (k : α) (v : β) :
    assocFind (assocSet m k v) k = some v := by
  induction m with
  | nil => simp [assocSet, assocFind]
  | cons p rest ih =>
    by_cases h : p.1 = k
    · simp [assocSet, h, assocFind]
    · simp [assocSet, h, assocFind, ih]

theorem assocFind_assocSet_ne [DecidableEq α] (m : List (α × β)) (k k' : α) (v : β)
    (h : k' ≠ k) : assocFind (assocSet m k v) k' = assocFind m k' := by
  induction m with
  | nil =>
    simp only [assocSet, assocFind, if_neg (Ne.symm h)]
  | cons p rest ih =>
    by_cases hp : p.1 = k
    · subst hp
      simp [assocSet, assocFind, Ne.symm h]
    · simp only [assocSet, if_neg hp]
      simp [assocFind, ih]

theorem length_assocSet_of_not_found [DecidableEq α] (m : List (α × β)) (k : α) (v : β)
    (h : assocFind m k = none) :
    (assocSet m k v).length = m.length + 1 := by
  induction m with
  | nil => simp [assocSet]
  | cons p rest ih =>
    by_cases hp : p.1 = k
    · simp [assocFind, hp] at h
    · simp [assocFind, hp] at h
      simp [assocSet, hp, ih h]

/-! ## `EnumMember` name↔value maps (`Member.h`, lines 131–220)

`EnumMember<Class, T>` (for `T` an enumeration) keeps two function-local
static maps per `(Class, T)` instantiation: `to_str_map : T → std::string`
and `from_str_map : std::string → T`.  Being `static`, one pair of maps is
shared by every `EnumMember<Class, T>` instance in the process; we model
that shared storage as an explicit `EnumMaps` state threaded through the
operations.  The enum type `T` is modelled by an arbitrary type with
decidable equality; value-initialization `T()` (what `operator[]` performs
on a missing key) is `default`. -/

variable {T : Type u}

/-- The shared per-`(Class, T)` static maps of `EnumMember` (`Member.h`,
lines 206–219). -/
structure EnumMaps (T : Type u) where
  to_str : List (T × String)
  from_str : List (String × T)
  deriving DecidableEq

/-- Both static maps start empty. -/
def EnumMaps.empty : EnumMaps T := ⟨[], []⟩

/-- `EnumMember::value(name, value)` (`Member.h`, lines 141–149):
`to_str_map[value] = name; from_str_map[name] = value`. -/
def EnumMaps.value [DecidableEq T] (s : EnumMaps T) (name : String) (v : T) :
    EnumMaps T :=
  { to_str := assocSet s.to_str v name
    from_str := assocSet s.from_str name v }

/-- `EnumMember::toString(value)` (`Member.h`, lines 152–157): returns
`to_str_map[value]`; `operator[]` default-inserts on a missing key, so the
call also returns the possibly grown shared state. -/
def EnumMaps.enumToString [DecidableEq T] (s : EnumMaps T) (v : T) :
    String × EnumMaps T :=
  let r := bracketRead s.to_str v
  (r.1, { s with to_str := r.2 })

/-- `EnumMember::fromString(name)` (`Member.h`, lines 159–164): returns
`from_str_map[name]`, default-inserting on a missing key. -/
def EnumMaps.enumFromString [DecidableEq T] [Inhabited T] (s : EnumMaps T)
    (name : String) : T × EnumMaps T :=
  let r := bracketRead s.from_str name
  (r.1, { s with from_str := r.2 })

/-- A chain of fluent `.value(name, v)` calls applied in order. -/
def registerAll [DecidableEq T] (s : EnumMaps T) : List (String × T) → EnumMaps T
  | [] => s
  | p :: rest => registerAll (s.value p.1 p.2) rest

/-- The name of the last registration in `regs` carrying enum value `v`,
if any: after the chain runs, `to_str_map[v]` holds exactly this name. -/
def lastName [DecidableEq T] : List (String × T) → T → Option String
  | [], _ => none
  | p :: rest, v =>
      (lastName rest v).orElse (fun _ => if p.2 = v then some p.1 else none)

/-- The value of the last registration in `regs` carrying name `n`, if any. -/
def lastVal : List (String × T) → String → Option T
  | [], _ => none
  | p :: rest, n =>
      (lastVal rest n).orElse (fun _ => if p.1 = n then some p.2 else none)

theorem lastName_mem [DecidableEq T] (regs : List (String × T)) (v : T) (n : String)
    (h : lastName regs v = some n) : (n, v) ∈ regs := by
  induction regs with
  | nil => simp [lastName] at h
  | cons p rest ih =>
    simp only [lastName] at h
    cases hrest : lastName rest v with
    | some n' =>
      rw [hrest] at h
      simp [Option.orElse] at h
      subst h
      exact List.mem_cons_of_mem _ (ih hrest)
    | none =>
      rw [hrest] at h
      simp [Option.orElse] at h
      by_cases hp : p.2 = v
      · simp [hp] at h
        obtain ⟨a, b⟩ := p
        subst hp
        subst h
        exact List.mem_cons_self _ _
      · simp [hp] at h

theorem lastVal_mem (regs : List (String × T)) (n : String) (v : T)
    (h : lastVal regs n = some v) : (n, v) ∈ regs := by
  induction regs with
  | nil => simp [lastVal] at h
  | cons p rest ih =>
    simp only [lastVal] at h
    cases hrest : lastVal rest n with
    | some v' =>
      rw [hrest] at h
      simp [Option.orElse] at h
      subst h
      exact List.mem_cons_of_mem _ (ih hrest)
    | none =>
      rw [hrest] at h
      simp [Option.orElse] at h
      by_cases hp : p.1 = n
      · simp [hp] at h
        obtain ⟨a, b⟩ := p
        subst hp
        subst h
        exact List.mem_cons_self _ _
      · simp [hp] at h

theorem to_str_registerAll [DecidableEq T] (regs : List (String × T))
    (s : EnumMaps T) (v : T) :
    assocFind (registerAll s regs).to_str v =
      match lastName regs v with
      | some n => some n
      | none => assocFind s.to_str v := by
  induction regs generalizing s with
  | nil => simp [registerAll, lastName]
  | cons p rest ih =>
    simp only [registerAll, lastName]
    rw [ih]
    cases hrest : lastName rest v with
    | some n => simp [Option.orElse]
    | none =>
      simp only [Option.orElse, Option.none_orElse]
      by_cases hp : p.2 = v
      · subst hp
        simp [EnumMaps.value, assocFind_assocSet_self]
      · simp [hp, EnumMaps.value, assocFind_assocSet_ne _ _ _ _ (fun h => hp h.symm)]

theorem from_str_registerAll [DecidableEq T] (regs : List (String × T))
    (s : EnumMaps T) (n : String) :
    assocFind (registerAll s regs).from_str n =
      match lastVal regs n with
      | some v => some v
      | none => assocFind s.from_str n := by
  induction regs generalizing s with
  | nil => simp [registerAll, lastVal]
  | cons p rest ih =>
    simp only [registerAll, lastVal]
    rw [ih]
    cases hrest : lastVal rest n with
    | some v => simp [Option.orElse]
    | none =>
      simp only [Option.orElse, Option.none_orElse]
      by_cases hp : p.1 = n
      · subst hp
        simp [EnumMaps.value, assocFind_assocSet_self]
      · simp [hp, EnumMaps.value, assocFind_assocSet_ne _ _ _ _ (fun h => hp h.symm)]

/-! ## `Member<Class, T>` (`Member.h`, lines 52–104)

A `Member` stores a name, a pointer to data member `ptr` together with the
presence flag `hasMemberPtr` (the pointer's stored value alone cannot encode
absence, because a pointer to the first member of a class may compare equal
to the null sentinel), and five optional accessor function pointers.  A C++
pointer to data member denotes a field of `Class`, i.e. a read function and
a write function; we model the stored pointer value as such a pair
`ptrGet`/`ptrSet`, and each optional accessor pointer as an `Option` of the
corresponding function. -/

variable {Obj : Type u} {V : Type v}

/-- The state of a `Member<Class, T>` object (`Member.h`, lines 91–104),
with `Obj` for `Class` and `V` for `T`. -/
structure Member (Obj : Type u) (V : Type v) where
  name : String
  ptrGet : Obj → V
  ptrSet : V → Obj → Obj
  hasMemberPtr : Bool
  refGetterPtr : Option (Obj → V)
  refSetterPtr : Option (V → Obj → Obj)
  valGetterPtr : Option (Obj → V)
  valSetterPtr : Option (V → Obj → Obj)
  nonConstRefGetterPtr : Option (Obj → V)

/-- `hasPtr()` (`Member.h`, line 77): `return hasMemberPtr;`. -/
def Member.hasPtr (m : Member Obj V) : Bool := m.hasMemberPtr

/-- `hasGetter()` (`Member.h`, line 78): `refGetterPtr || valGetterPtr`. -/
def Member.hasGetter (m : Member Obj V) : Bool :=
  m.refGetterPtr.isSome || m.valGetterPtr.isSome

/-- `hasSetter()` (`Member.h`, line 79): `refSetterPtr || valSetterPtr`. -/
def Member.hasSetter (m : Member Obj V) : Bool :=
  m.refSetterPtr.isSome || m.valSetterPtr.isSome

/-- `canGetConstRef()` (`Member.h`, line 80): `hasMemberPtr || refGetterPtr`. -/
def Member.canGetConstRef (m : Member Obj V) : Bool :=
  m.hasMemberPtr || m.refGetterPtr.isSome

/-- `canGetRef()` (`Member.h`, line 81): `hasMemberPtr || nonConstRefGetterPtr`. -/
def Member.canGetRef (m : Member Obj V) : Bool :=
  m.hasMemberPtr || m.nonConstRefGetterPtr.isSome

/-- `Member(name, ptr)` (declared `Member.h` line 58; body in the missing
`Member.inl`).  Modelled from the spec: the constructor from a field
pointer populates only the direct-field strategy and sets its presence
flag. -/
def Member.mkPtr (name : String) (g : Obj → V) (s : V → Obj → Obj) : Member Obj V :=
  { name := name
    ptrGet := g
    ptrSet := s
    hasMemberPtr := true
    refGetterPtr := none
    refSetterPtr := none
    valGetterPtr := none
    valSetterPtr := none
    nonConstRefGetterPtr := none }

/-- `get(obj)` (declared `Member.h` line 67; body in the missing
`Member.inl`).  Modelled from the spec: returns the value by const
reference, using the reference-getter accessor if present, else the direct
field reference; a contract violation (neither present) is modelled as
`none`. -/
def Member.get (m : Member Obj V) (obj : Obj) : Option V :=
  match m.refGetterPtr with
  | some g => some (g obj)
  | none => if m.hasMemberPtr then some (m.ptrGet obj) else none

/-- `getCopy(obj)` (declared `Member.h` line 68; body in the missing
`Member.inl`).  Modelled from the spec: returns a value copy through any
get-capable strategy, accessors taking precedence over the direct field. -/
def Member.getCopy (m : Member Obj V) (obj : Obj) : Option V :=
  match m.refGetterPtr with
  | some g => some (g obj)
  | none =>
    match m.valGetterPtr with
    | some g => some (g obj)
    | none => if m.hasMemberPtr then some (m.ptrGet obj) else none

/-- `set(obj, value)` (declared `Member.h` lines 72–74; body in the missing
`Member.inl`).  Modelled from the spec: prefers setter accessors over the
direct field write when both exist; no setter-capable strategy is modelled
as `none`. -/
def Member.set (m : Member Obj V) (obj : Obj) (v : V) : Option Obj :=
  match m.refSetterPtr with
  | some s => some (s v obj)
  | none =>
    match m.valSetterPtr with
    | some s => some (s v obj)
    | none => if m.hasMemberPtr then some (m.ptrSet v obj) else none

/-! ## The non-enum `toString`/`fromString` overloads (`Member.h`, lines 166–181)

When `T` is not an enumeration, `EnumMember::toString` executes
`assert("Called EnumMember method on non-enum type class. ...")` and then
returns `std::string("")`; `fromString` does the same assert and returns a
default-constructed `U`.  The assert's condition is the string literal
itself: a string literal decays to a non-null `const char*`, whose implicit
conversion to `bool` compares the pointer against null.  We model a C
string by its address, the literal by an arbitrary non-null address, and a
call that may trip an assert by `CppOutcome`. -/

/-- A `const char*` modelled by its address. -/
structure CStrPtr where
  addr : Nat
  deriving DecidableEq

/-- C++ implicit pointer-to-`bool` conversion: true iff the pointer is
non-null. -/
def CStrPtr.toBool (p : CStrPtr) : Bool := p.addr != 0

/-- Outcome of a C++ call under assertion semantics: either the function
returns a value or an `assert` aborts the program. -/
inductive CppOutcome (A : Type u) where
  | returned : A → CppOutcome A
  | assertionFailed : CppOutcome A
  deriving DecidableEq

/-- `assert(cond); k` with assertions enabled: continue with `k` when the
condition converts to true, abort otherwise. -/
def cppAssert {A : Type u} (cond : Bool) (k : CppOutcome A) : CppOutcome A :=
  if cond then k else CppOutcome.assertionFailed

/-- The non-enum `toString` overload (`Member.h`, lines 166–172):
`assert(msg)` where `msg` is the error-message string literal, then
`return std::string("")`.  The literal's address `msg` is any non-null
address. -/
def toStringNonEnum (msg : CStrPtr) : CppOutcome String :=
  cppAssert msg.toBool (CppOutcome.returned "")

/-- The non-enum `fromString` overload (`Member.h`, lines 174–181):
`assert(msg)`, then `U v; return v;`.  The indeterminate value of the
uninitialized `v` is passed in as `u`. -/
def fromStringNonEnum {U : Type u} (msg : CStrPtr) (u : U) : CppOutcome U :=
  cppAssert msg.toBool (CppOutcome.returned u)

/-! ## Class registry (`Meta.h`, lines 19–29 and 72–74)

`getMembers<Class>()` is declared in `Meta.h`; its body and the
`MetaHolder` cache live in the missing `Meta.inl`.  The header comment
states that `registerMembers` "is called by MetaHolder during its static
member initialization, so the tuple is created only once and then
registerMembers function is never called again."  We model the per-class
cache as a `Registry` holding the optional built collection and a counter
of factory invocations. -/

/-- The per-class cache state: the built member collection, if already
built, and how many times the registration factory has run. -/
structure Registry (M : Type u) where
  cache : Option M
  calls : Nat
  deriving DecidableEq

/-- The cache state before any request: nothing built, factory never run. -/
def Registry.fresh {M : Type u} : Registry M := ⟨none, 0⟩

/-- `getMembers<Class>()`.  Modelled from the spec: the first request
invokes the registration factory `registerMembers<Class>()` (here the
value it would return, with the invocation counted), caches the result,
and every request returns the cached collection. -/
def getMembersOnce {M : Type u} (factory : M) (r : Registry M) : M × Registry M :=
  match r.cache with
  | some ms => (ms, r)
  | none => (factory, { cache := some factory, calls := r.calls + 1 })

/-- `n` successive calls of `getMembers<Class>()`: the list of returned
collections and the final cache state. -/
def getMembersRun {M : Type u} (factory : M) : Nat → Registry M → List M × Registry M
  | 0, r => ([], r)
  | n + 1, r =>
    let x := getMembersOnce factory r
    let rest := getMembersRun factory n x.2
    (x.1 :: rest.1, rest.2)

theorem getMembersRun_cached {M : Type u} (factory : M) (n : Nat) (ms : M) (c : Nat) :
    getMembersRun factory n ⟨some ms, c⟩ = (List.replicate n ms, ⟨some ms, c⟩) := by
  induction n with
  | zero => simp [getMembersRun]
  | succ k ih => simp [getMembersRun, getMembersOnce, ih, List.replicate]

/-! ## Generic dispatch layer (`Meta.h`, lines 96–114)

`hasMember`, `doForAllMembers`, `doForMember`, `getMemberValue` and
`setMemberValue` are declared in `Meta.h`; their bodies live in the missing
`Meta.inl`.  The registered collection of a class is heterogeneous (each
member has its own declared type), so we model a closed universe `Ty` of
member types and a registered member `RMember` as a name, a declared type
tag, and get/set access at that type.  All of the dispatch functions below
are modelled from the spec. -/

/-- A closed universe of member value types, standing for the statically
known type parameter `T` of the C++ templates. -/
inductive Ty where
  | tInt
  | tBool
  | tStr
  deriving DecidableEq

/-- The Lean type denoted by a type tag. -/
def Ty.interp : Ty → Type
  | .tInt => Int
  | .tBool => Bool
  | .tStr => String

instance (t : Ty) : DecidableEq t.interp := by
  cases t <;> (simp only [Ty.interp]; infer_instance)

instance (t : Ty) : Inhabited t.interp := by
  cases t <;> (simp only [Ty.interp]; infer_instance)

/-- One registered member of a class `Obj`: its name, its declared type
tag, and its access functions at that declared type. -/
structure RMember (Obj : Type u) where
  name : String
  ty : Ty
  getC : Obj → ty.interp
  setC : ty.interp → Obj → Obj

/-- Reading a registered member at a requested type `t`: succeeds exactly
when the declared type matches the requested one. -/
def RMember.getAs (m : RMember Obj) (t : Ty) (obj : Obj) : Option t.interp :=
  if h : m.ty = t then some (h ▸ m.getC obj) else none

/-- Writing a registered member at a requested type `t`: succeeds exactly
when the declared type matches the requested one. -/
def RMember.setAs (m : RMember Obj) (t : Ty) (v : t.interp) (obj : Obj) : Option Obj :=
  if h : m.ty = t then some (m.setC (h ▸ v) obj) else none

/-- `hasMember<Class>(name)` (`Meta.h`, lines 97–98).  Modelled from the
spec: a linear scan of the class's member collection for a name match. -/
def hasMember (ms : List (RMember Obj)) (name : String) : Bool :=
  ms.any (fun m => m.name = name)

/-- `doForMember<Class, T>(name, f)` (`Meta.h`, lines 104–105).  Modelled
from the spec: finds the first member whose name matches AND whose declared
type matches `t`; a name match with a mismatched type is skipped as if not
found.  The result is the member `f` is applied to, if any: `f` runs
exactly on `(doForMemberHit ms name t).toList`. -/
def doForMemberHit (ms : List (RMember Obj)) (name : String) (t : Ty) :
    Option (RMember Obj) :=
  ms.find? (fun m => m.name = name ∧ m.ty = t)

/-- `getMemberValue<T, Class>(obj, name)` (`Meta.h`, lines 108–109).
Modelled from the spec: finds the member by name and type and returns its
value by copy; a miss (no name match, or name match at another declared
type) is the not-found result `none`, never a wrongly-typed read and never
a distinct error. -/
def getMemberValue (ms : List (RMember Obj)) (t : Ty) (obj : Obj) (name : String) :
    Option t.interp :=
  match doForMemberHit ms name t with
  | some m => m.getAs t obj
  | none => none

/-- `setMemberValue<T, Class>(obj, name, value)` (`Meta.h`, lines 112–114).
Modelled from the spec: finds the member by name and type and sets it; a
miss is the not-found result `none`. -/
def setMemberValue (ms : List (RMember Obj)) (t : Ty) (obj : Obj) (name : String)
    (v : t.interp) : Option Obj :=
  match doForMemberHit ms name t with
  | some m => m.setAs t v obj
  | none => none

/-- The members visited by `doForAllMembers<Class>(f)` (`Meta.h`, lines
100–101), in order.  Modelled from the spec: `f` is applied to every member
of the class's collection in registration order, so the visit list is the
collection itself. -/
def doForAllMembersVisits (ms : List (RMember Obj)) : List (RMember Obj) := ms

/-- The member collection of a class with no `registerMembers`
specialization.  Modelled from the spec: an unregistered class's collection
is the empty ordered collection, not an error. -/
def unregisteredMembers (Obj : Type u) : List (RMember Obj) := []

/-! ## Further facts about registration chains -/

theorem lastName_append [DecidableEq T] (l1 l2 : List (String × T)) (v : T) :
    lastName (l1 ++ l2) v = (lastName l2 v).orElse (fun _ => lastName l1 v) := by
  induction l1 with
  | nil =>
    cases h : lastName l2 v <;> simp [lastName, Option.orElse, h]
  | cons p rest ih =>
    simp only [List.cons_append, lastName, List.append_eq]
    rw [ih]
    cases h : lastName l2 v <;> simp [Option.orElse]

theorem lastVal_append (l1 l2 : List (String × T)) (n : String) :
    lastVal (l1 ++ l2) n = (lastVal l2 n).orElse (fun _ => lastVal l1 n) := by
  induction l1 with
  | nil =>
    cases h : lastVal l2 n <;> simp [lastVal, Option.orElse, h]
  | cons p rest ih =>
    simp only [List.cons_append, lastVal, List.append_eq]
    rw [ih]
    cases h : lastVal l2 n <;> simp [Option.orElse]

theorem lastName_eq_none [DecidableEq T] (l : List (String × T)) (v : T)
    (h : ∀ p ∈ l, p.2 ≠ v) : lastName l v = none := by
  induction l with
  | nil => simp [lastName]
  | cons p rest ih =>
    have hp : p.2 ≠ v := h p (List.mem_cons_self _ _)
    have hrest := ih (fun q hq => h q (List.mem_cons_of_mem _ hq))
    simp [lastName, hrest, Option.orElse, hp]

theorem lastVal_eq_none (l : List (String × T)) (n : String)
    (h : ∀ p ∈ l, p.1 ≠ n) : lastVal l n = none := by
  induction l with
  | nil => simp [lastVal]
  | cons p rest ih =>
    have hp : p.1 ≠ n := h p (List.mem_cons_self _ _)
    have hrest := ih (fun q hq => h q (List.mem_cons_of_mem _ hq))
    simp [lastVal, hrest, Option.orElse, hp]

/-! ## Claim theorems -/

/-- C1 counterexample: the claim quantifies over every pair ever passed to
a `.value(name, value)` call, but the maps keep only the last binding per
key.  Registering `("A", 0)` and then `("B", 0)` leaves `toString(0)`
returning `"B"`, not `"A"`, even though `("A", 0)` was registered via
`value`. -/
theorem enum_roundtrip_claim_counterexample :
    (("A", (0 : ℕ)) ∈ [("A", (0 : ℕ)), ("B", 0)]) ∧
    ((registerAll EnumMaps.empty [("A", (0 : ℕ)), ("B", 0)]).enumToString 0).1 = "B" ∧
    ((registerAll EnumMaps.empty [("A", (0 : ℕ)), ("B", 0)]).enumToString 0).1 ≠ "A" := by
  refine ⟨by decide, rfl, by decide⟩

/-- C1 (amended): for every pair `(n, v)` registered via a fluent
`.value(n, v)` call such that no later `value` call on the chain
re-registers the same enum value or the same name, `toString(v)` returns
`n` and `fromString(n)` returns `v`. -/
theorem enum_roundtrip_of_last_registration [DecidableEq T] [Inhabited T]
    (l1 l2 : List (String × T)) (n : String) (v : T)
    (hval : ∀ p ∈ l2, p.2 ≠ v) (hname : ∀ p ∈ l2, p.1 ≠ n) :
    ((registerAll EnumMaps.empty (l1 ++ (n, v) :: l2)).enumToString v).1 = n ∧
    ((registerAll EnumMaps.empty (l1 ++ (n, v) :: l2)).enumFromString n).1 = v := by
  have hlastName : lastName (l1 ++ (n, v) :: l2) v = some n := by
    rw [lastName_append]
    simp [lastName, lastName_eq_none l2 v hval, Option.orElse]
  have hlastVal : lastVal (l1 ++ (n, v) :: l2) n = some v := by
    rw [lastVal_append]
    simp [lastVal, lastVal_eq_none l2 n hname, Option.orElse]
  have h1 := to_str_registerAll (l1 ++ (n, v) :: l2) EnumMaps.empty v
  have h2 := from_str_registerAll (l1 ++ (n, v) :: l2) EnumMaps.empty n
  rw [hlastName] at h1
  rw [hlastVal] at h2
  constructor
  · simp [EnumMaps.enumToString, bracketRead, h1]
  · simp [EnumMaps.enumFromString, bracketRead, h2]

/-- C1 witness: registering `("GREEN", 1)` then `("RED", 0)` makes
`toString(0) = "RED"` and `fromString("RED") = 0`. -/
theorem enum_roundtrip_of_last_registration_witness :
    ((registerAll EnumMaps.empty ([("GREEN", (1 : ℕ))] ++ ("RED", 0) :: [])).enumToString 0).1 = "RED" ∧
    ((registerAll EnumMaps.empty ([("GREEN", (1 : ℕ))] ++ ("RED", 0) :: [])).enumFromString "RED").1 = 0 :=
  enum_roundtrip_of_last_registration [("GREEN", 1)] [] "RED" 0 (by decide) (by decide)

/-- C2 (confirmed): the capability predicates of `Member` report exactly
which access strategies are populated — `hasGetter` iff a reference or a
value getter is present, `hasSetter` iff a reference or a value setter is
present, `canGetConstRef` iff the direct-field presence flag is set or a
reference getter is present, `canGetRef` iff the flag is set or a non-const
reference getter is present, and `hasPtr` iff the flag is set, independent
of the stored pointer value. -/
theorem capability_predicates_exact {Obj : Type u} {V : Type v} (m : Member Obj V) :
    (m.hasGetter = true ↔ (m.refGetterPtr.isSome = true ∨ m.valGetterPtr.isSome = true)) ∧
    (m.hasSetter = true ↔ (m.refSetterPtr.isSome = true ∨ m.valSetterPtr.isSome = true)) ∧
    (m.canGetConstRef = true ↔ (m.hasMemberPtr = true ∨ m.refGetterPtr.isSome = true)) ∧
    (m.canGetRef = true ↔ (m.hasMemberPtr = true ∨ m.nonConstRefGetterPtr.isSome = true)) ∧
    (m.hasPtr = true ↔ m.hasMemberPtr = true) ∧
    (∀ g s, (Member.hasPtr { m with ptrGet := g, ptrSet := s }) = m.hasPtr) := by
  refine ⟨?_, ?_, ?_, ?_, Iff.rfl, fun g s => rfl⟩ <;>
    simp [Member.hasGetter, Member.hasSetter, Member.canGetConstRef, Member.canGetRef,
      Bool.or_eq_true]

/-- A member over a one-field object (the object is its own field value)
that has both the direct field strategy and a value accessor pair
populated; the value getter always reports 42. -/
def valPairFieldMember : Member ℕ ℕ :=
  { name := "x"
    ptrGet := fun o => o
    ptrSet := fun w _ => w
    hasMemberPtr := true
    refGetterPtr := none
    refSetterPtr := none
    valGetterPtr := some (fun _ => 42)
    valSetterPtr := some (fun w _ => w)
    nonConstRefGetterPtr := none }

/-- C3 counterexample: on a member with both a direct field and a *value*
accessor pair, `get` does not route through the populated getter accessor:
`get` only consults the reference getter (it must return a const
reference, which a by-value getter cannot supply) and so falls back to the
direct field.  On the object `7` (whose field holds `7`) the value getter
reports `42`, yet `get` returns `7`, read from the field, while `getCopy`
returns the getter's `42`. -/
theorem accessor_precedence_claim_counterexample :
    valPairFieldMember.hasMemberPtr = true ∧
    valPairFieldMember.valGetterPtr.isSome = true ∧
    valPairFieldMember.valSetterPtr.isSome = true ∧
    valPairFieldMember.get 7 = some 7 ∧
    valPairFieldMember.getCopy 7 = some 42 ∧
    valPairFieldMember.get 7 ≠ some 42 :=
  ⟨rfl, rfl, rfl, rfl, rfl, by decide⟩

/-- C3 (amended): on a member with the direct field strategy populated,
accessors applicable to the operation take precedence over the direct
field — `get` routes through the reference getter when present and falls
back to the direct field otherwise (a value getter is not applicable to
`get`); `getCopy` routes through the reference getter, else the value
getter, and reads the direct field only when neither is present; `set`
routes through the reference setter, else the value setter, and writes the
direct field only when neither is present. -/
theorem accessor_precedence_routing {Obj : Type u} {V : Type v}
    (m : Member Obj V) (obj : Obj) (v : V) (hp : m.hasMemberPtr = true) :
    (∀ g, m.refGetterPtr = some g →
      m.get obj = some (g obj) ∧ m.getCopy obj = some (g obj)) ∧
    (m.refGetterPtr = none → m.get obj = some (m.ptrGet obj)) ∧
    (m.refGetterPtr = none → ∀ g, m.valGetterPtr = some g →
      m.getCopy obj = some (g obj)) ∧
    (m.refGetterPtr = none → m.valGetterPtr = none →
      m.getCopy obj = some (m.ptrGet obj)) ∧
    (∀ s, m.refSetterPtr = some s → m.set obj v = some (s v obj)) ∧
    (m.refSetterPtr = none → ∀ s, m.valSetterPtr = some s →
      m.set obj v = some (s v obj)) ∧
    (m.refSetterPtr = none → m.valSetterPtr = none →
      m.set obj v = some (m.ptrSet v obj)) := by
  refine ⟨?_, ?_, ?_, ?_, ?_, ?_, ?_⟩ <;> intros <;>
    simp_all [Member.get, Member.getCopy, Member.set]

/-- A member with both a direct field strategy and a reference accessor
pair populated; the reference getter always reports 5 and the reference
setter stores the successor of the written value. -/
def refPairFieldMember : Member ℕ ℕ :=
  { name := "y"
    ptrGet := fun o => o
    ptrSet := fun w _ => w
    hasMemberPtr := true
    refGetterPtr := some (fun _ => 5)
    refSetterPtr := some (fun w _ => w + 1)
    valGetterPtr := none
    valSetterPtr := none
    nonConstRefGetterPtr := none }

/-- C3 witness: the routing theorem applied to `refPairFieldMember` on
object `7` with written value `3`. -/
theorem accessor_precedence_routing_witness :
    (∀ g, refPairFieldMember.refGetterPtr = some g →
      refPairFieldMember.get 7 = some (g 7) ∧
      refPairFieldMember.getCopy 7 = some (g 7)) ∧
    (refPairFieldMember.refGetterPtr = none →
      refPairFieldMember.get 7 = some (refPairFieldMember.ptrGet 7)) ∧
    (refPairFieldMember.refGetterPtr = none → ∀ g,
      refPairFieldMember.valGetterPtr = some g →
      refPairFieldMember.getCopy 7 = some (g 7)) ∧
    (refPairFieldMember.refGetterPtr = none →
      refPairFieldMember.valGetterPtr = none →
      refPairFieldMember.getCopy 7 = some (refPairFieldMember.ptrGet 7)) ∧
    (∀ s, refPairFieldMember.refSetterPtr = some s →
      refPairFieldMember.set 7 3 = some (s 3 7)) ∧
    (refPairFieldMember.refSetterPtr = none → ∀ s,
      refPairFieldMember.valSetterPtr = some s →
      refPairFieldMember.set 7 3 = some (s 3 7)) ∧
    (refPairFieldMember.refSetterPtr = none →
      refPairFieldMember.valSetterPtr = none →
      refPairFieldMember.set 7 3 = some (refPairFieldMember.ptrSet 3 7)) :=
  accessor_precedence_routing refPairFieldMember 7 3 rfl

/-- C4 (confirmed): starting from the fresh cache, any number `N ≥ 1` of
`getMembers` requests invokes the registration factory exactly once — the
final call counter is 1 — and every request returns the factory's
collection, which is also the cached one. -/
theorem getMembers_single_build {M : Type u} (factory : M) (N : ℕ) (hN : 1 ≤ N) :
    (getMembersRun factory N Registry.fresh).2.calls = 1 ∧
    (getMembersRun factory N Registry.fresh).2.cache = some factory ∧
    ∀ x ∈ (getMembersRun factory N Registry.fresh).1, x = factory := by
  obtain ⟨k, rfl⟩ : ∃ k, N = k + 1 := ⟨N - 1, by omega⟩
  simp only [getMembersRun, getMembersOnce, Registry.fresh]
  rw [getMembersRun_cached]
  refine ⟨rfl, rfl, ?_⟩
  intro x hx
  rcases List.mem_cons.mp hx with h | h
  · exact h
  · exact List.eq_of_mem_replicate h

/-- C4 witness: three requests for the collection `[10, 20]` build it once
and all return it. -/
theorem getMembers_single_build_witness :
    (getMembersRun [10, 20] 3 Registry.fresh).2.calls = 1 ∧
    (getMembersRun [10, 20] 3 Registry.fresh).2.cache = some [10, 20] ∧
    ∀ x ∈ (getMembersRun [10, 20] 3 Registry.fresh).1, x = [10, 20] :=
  getMembers_single_build [10, 20] 3 (by decide)

/-- C5 (confirmed): a name+type lookup whose name matches a registered
member but whose requested type differs from every same-named member's
declared type is treated as not-found: `doForMember` applies its function
to no member, and `getMemberValue`/`setMemberValue` return the not-found
result `none` — by construction never a read or write of the member's
storage at the wrong type, and the same outcome as an absent name rather
than a distinct type error. -/
theorem type_mismatch_treated_as_not_found {Obj : Type u}
    (ms : List (RMember Obj)) (obj : Obj) (n : String) (t : Ty) (v : t.interp)
    (_hname : ∃ m ∈ ms, m.name = n)
    (hmismatch : ∀ m ∈ ms, m.name = n → m.ty ≠ t) :
    doForMemberHit ms n t = none ∧
    (doForMemberHit ms n t).toList = [] ∧
    getMemberValue ms t obj n = none ∧
    setMemberValue ms t obj n v = none := by
  have hfind : doForMemberHit ms n t = none := by
    rw [doForMemberHit, List.find?_eq_none]
    intro m hm
    simp only [decide_eq_true_eq, not_and]
    intro h1 h2
    exact hmismatch m hm h1 h2
  refine ⟨hfind, by rw [hfind]; rfl, ?_, ?_⟩ <;>
    simp [getMemberValue, setMemberValue, hfind]

/-- A one-member collection over a one-field object: an `Int`-typed member
named `x` whose storage is the object itself. -/
def intFieldOnly : List (RMember Int) :=
  [{ name := "x", ty := Ty.tInt, getC := fun o => o, setC := fun w _ => w }]

/-- C5 witness: looking `x` up at type `Bool` on the `Int`-typed collection
is a not-found outcome for `doForMember`, `getMemberValue` and
`setMemberValue`. -/
theorem type_mismatch_treated_as_not_found_witness :
    doForMemberHit intFieldOnly "x" Ty.tBool = none ∧
    (doForMemberHit intFieldOnly "x" Ty.tBool).toList = [] ∧
    getMemberValue intFieldOnly Ty.tBool 0 "x" = none ∧
    setMemberValue intFieldOnly Ty.tBool 0 "x" true = none :=
  type_mismatch_treated_as_not_found intFieldOnly 0 "x" Ty.tBool true
    ⟨intFieldOnly.head (by simp [intFieldOnly]), by simp [intFieldOnly]⟩
    (by intro m hm _; simp [intFieldOnly] at hm; simp [hm])

/-- C6 (confirmed): a class with no `registerMembers` specialization has
the empty member collection, so `hasMember` is false for every name and
`doForAllMembers` visits no member — being unregistered is a no-op, not an
error. -/
theorem unregistered_class_empty_ops (Obj : Type u) (name : String) :
    unregisteredMembers Obj = [] ∧
    hasMember (unregisteredMembers Obj) name = false ∧
    doForAllMembersVisits (unregisteredMembers Obj) = [] := by
  refine ⟨rfl, ?_, rfl⟩
  simp [hasMember, unregisteredMembers]

/-- C7 (confirmed): `toString` on an enum value that was never registered
via `value(...)` returns the default-constructed (empty) string — the
`operator[]` lookup value-initializes the missing entry — and the model's
total return type shows no error is signalled. -/
theorem toString_unregistered_default [DecidableEq T] (s : EnumMaps T) (v : T)
    (h : assocFind s.to_str v = none) :
    (s.enumToString v).1 = "" := by
  simp [EnumMaps.enumToString, bracketRead, h]

/-- C7 witness: on the empty maps, `toString 0` returns the empty string. -/
theorem toString_unregistered_default_witness :
    ((EnumMaps.empty : EnumMaps ℕ).enumToString 0).1 = "" :=
  toString_unregistered_default EnumMaps.empty 0 rfl

/-- C8: the non-enum overloads of `toString`/`fromString` execute
`assert(msg)` whose condition is the error-message string literal itself;
a string literal has a non-null address, so the condition is always true,
the assertion never fires, and both overloads silently return (`toString`
an empty string, `fromString` the indeterminate value of its uninitialized
local).  This contradicts the claim — and the overloads' own intent — that
the calls fail loudly. -/
theorem nonenum_assert_never_fires (msg : CStrPtr) (h : msg.addr ≠ 0) :
    toStringNonEnum msg = CppOutcome.returned "" ∧
    ∀ u : ℕ, fromStringNonEnum msg u = CppOutcome.returned u := by
  have hb : msg.toBool = true := by
    simp [CStrPtr.toBool, h]
  exact ⟨by simp [toStringNonEnum, cppAssert, hb],
    fun u => by simp [fromStringNonEnum, cppAssert, hb]⟩

/-- C8 witness: at any concrete non-null literal address the calls return
silently. -/
theorem nonenum_assert_never_fires_witness :
    toStringNonEnum ⟨1⟩ = CppOutcome.returned "" ∧
    ∀ u : ℕ, fromStringNonEnum ⟨1⟩ u = CppOutcome.returned u :=
  nonenum_assert_never_fires ⟨1⟩ (by decide)

/-- C9 (confirmed): on a member with the direct field strategy and no
accessor pair, `set` followed by `getCopy` round-trips: writing `v` and
then reading returns `v`.  The hypothesis `hlens` states the C++ semantics
of a pointer to data member: reading the field after writing it yields the
written value. -/
theorem direct_field_roundtrip {Obj : Type u} {V : Type v}
    (m : Member Obj V) (obj : Obj) (v : V)
    (hp : m.hasMemberPtr = true)
    (hrg : m.refGetterPtr = none) (hvg : m.valGetterPtr = none)
    (hrs : m.refSetterPtr = none) (hvs : m.valSetterPtr = none)
    (hlens : ∀ w o, m.ptrGet (m.ptrSet w o) = w) :
    m.set obj v = some (m.ptrSet v obj) ∧
    m.getCopy (m.ptrSet v obj) = some v := by
  constructor
  · simp [Member.set, hp, hrs, hvs]
  · simp [Member.getCopy, hp, hrg, hvg, hlens]

/-- C9 witness: the round-trip on a direct-field member over a one-field
object, writing 5 into the object 0. -/
theorem direct_field_roundtrip_witness :
    (Member.mkPtr "x" (fun o => o) (fun w _ => w) : Member ℕ ℕ).set 0 5 =
      some ((Member.mkPtr "x" (fun o => o) (fun w _ => w) : Member ℕ ℕ).ptrSet 5 0) ∧
    (Member.mkPtr "x" (fun o => o) (fun w _ => w) : Member ℕ ℕ).getCopy
      ((Member.mkPtr "x" (fun o => o) (fun w _ => w) : Member ℕ ℕ).ptrSet 5 0) = some 5 :=
  direct_field_roundtrip (Member.mkPtr "x" (fun o => o) (fun w _ => w)) 0 5
    rfl rfl rfl rfl rfl (fun _ _ => rfl)

/-- C10 (confirmed): the `(Class, T)`-shared maps are mutated by lookups —
`toString` on an unregistered value and `fromString` on an unregistered
name each insert a default-constructed entry for the missing key into the
shared state (modelling the function-local static maps every
`EnumMember<Class, T>` instance shares), so the state after the call
differs from the state before, the inserted entry is found by a subsequent
lookup of the same key on any instance, and that subsequent lookup returns
the default entry without growing the state further: `toString` and
`fromString` are not read-only operations. -/
theorem enum_string_maps_mutating [DecidableEq T] [Inhabited T]
    (s : EnumMaps T) (v : T) (n : String)
    (hv : assocFind s.to_str v = none) (hn : assocFind s.from_str n = none) :
    ((s.enumToString v).2 ≠ s ∧
     assocFind (s.enumToString v).2.to_str v = some "" ∧
     ((s.enumToString v).2.enumToString v).1 = "" ∧
     ((s.enumToString v).2.enumToString v).2 = (s.enumToString v).2) ∧
    ((s.enumFromString n).2 ≠ s ∧
     assocFind (s.enumFromString n).2.from_str n = some (default : T) ∧
     ((s.enumFromString n).2.enumFromString n).1 = (default : T) ∧
     ((s.enumFromString n).2.enumFromString n).2 = (s.enumFromString n).2) := by
  have hd : (default : String) = "" := rfl
  have h1 : (s.enumToString v).2.to_str = assocSet s.to_str v "" := by
    simp [EnumMaps.enumToString, bracketRead, hv, hd]
  have h2 : (s.enumFromString n).2.from_str = assocSet s.from_str n (default : T) := by
    simp [EnumMaps.enumFromString, bracketRead, hn]
  have hfind1 : assocFind (s.enumToString v).2.to_str v = some "" := by
    rw [h1]; exact assocFind_assocSet_self _ _ _
  have hfind2 : assocFind (s.enumFromString n).2.from_str n = some (default : T) := by
    rw [h2]; exact assocFind_assocSet_self _ _ _
  refine ⟨⟨?_, hfind1, ?_, ?_⟩, ⟨?_, hfind2, ?_, ?_⟩⟩
  · intro heq
    rw [heq] at hfind1
    rw [hv] at hfind1
    exact Option.noConfusion hfind1
  · simp [EnumMaps.enumToString, bracketRead, hv, assocFind_assocSet_self]
  · simp [EnumMaps.enumToString, bracketRead, hv, assocFind_assocSet_self]
  · intro heq
    rw [heq] at hfind2
    rw [hn] at hfind2
    exact Option.noConfusion hfind2
  · simp [EnumMaps.enumFromString, bracketRead, hn, assocFind_assocSet_self]
  · simp [EnumMaps.enumFromString, bracketRead, hn, assocFind_assocSet_self]

/-- C10 witness: on the empty maps over `ℕ`, `toString 0` and
`fromString "X"` each insert the default entry for the missing key. -/
theorem enum_string_maps_mutating_witness :
    (((EnumMaps.empty : EnumMaps ℕ).enumToString 0).2 ≠ EnumMaps.empty ∧
     assocFind ((EnumMaps.empty : EnumMaps ℕ).enumToString 0).2.to_str 0 = some "" ∧
     (((EnumMaps.empty : EnumMaps ℕ).enumToString 0).2.enumToString 0).1 = "" ∧
     (((EnumMaps.empty : EnumMaps ℕ).enumToString 0).2.enumToString 0).2 =
       ((EnumMaps.empty : EnumMaps ℕ).enumToString 0).2) ∧
    (((EnumMaps.empty : EnumMaps ℕ).enumFromString "X").2 ≠ EnumMaps.empty ∧
     assocFind ((EnumMaps.empty : EnumMaps ℕ).enumFromString "X").2.from_str "X" =
       some (default : ℕ) ∧
     (((EnumMaps.empty : EnumMaps ℕ).enumFromString "X").2.enumFromString "X").1 =
       (default : ℕ) ∧
     (((EnumMaps.empty : EnumMaps ℕ).enumFromString "X").2.enumFromString "X").2 =
       ((EnumMaps.empty : EnumMaps ℕ).enumFromString "X").2) :=
  enum_string_maps_mutating EnumMaps.empty 0 "X" rfl rfl

end MetaStuff
